import Mathlib

/-
Verification of the RPM package-manager plugin (cachi2) against its
natural-language specification.  Python strings are embedded as `List Char`,
paths are built exactly as `os.path.join` (POSIX flavour) builds them, and
the stateful download step is embedded as a trace of events threaded through
an explicit filesystem world.
-/

set_option maxRecDepth 10000

namespace Cachi2

/-- Python strings are embedded as lists of characters. -/
abbrev Str := List Char

/-- Does the string start with a slash (POSIX separator)? Mirrors
`b.startswith(sep)` in `posixpath.join`. -/
def startsWithSlash (s : Str) : Bool :=
  match s with
  | [] => false
  | c :: _ => c = '/'

/-- Does the string end with a slash? Mirrors `path.endswith(sep)` in
`posixpath.join`. -/
def endsWithSlash (s : Str) : Bool :=
  match s.getLast? with
  | some c => c = '/'
  | none => false

/-- One step of `posixpath.join`: join an accumulated path with one more
component, exactly as CPython does it. -/
def joinOne (path comp : Str) : Str :=
  if startsWithSlash comp then comp
  else if path = [] ∨ endsWithSlash path then path ++ comp
  else path ++ '/' :: comp

/-- `os.path.join(base, *comps)` (POSIX). -/
def pjoin (base : Str) (comps : List Str) : Str :=
  comps.foldl joinOne base

/-- `os.path.basename(s)` (POSIX): everything after the last slash. -/
def basename (s : Str) : Str :=
  (s.reverse.takeWhile (fun c => c ≠ '/')).reverse

/-- `os.path.dirname(s)` (POSIX): everything before the last slash, with
trailing separators stripped unless the result is all separators. -/
def pdirname (s : Str) : Str :=
  let head := (s.reverse.dropWhile (fun c => c ≠ '/')).reverse
  if head = [] then []
  else if head.all (fun c => c = '/') then head
  else (head.reverse.dropWhile (fun c => c = '/')).reverse

/-- One pinned artifact of the lockfile (class `Package` in rpm.py). -/
structure Package where
  repoid : Str
  url : Str
  checksum : Str
  size : Int
deriving DecidableEq

/-- One architecture group of the lockfile (class `Arch` in rpm.py). -/
structure Arch where
  arch : Str
  packages : List Package
  sources : List Package
deriving DecidableEq

/-- The parsed lockfile (class `RpmsLock` in rpm.py). -/
structure RpmsLock where
  lockfileVersion : Int
  lockfileVendor : Str
  lockfileType : Str
  arches : List Arch
deriving DecidableEq

/-- Destination path of a binary package, as computed in `RpmsLock.download`:
`os.path.join(output_dir, "deps", "rpm", arch.arch, pkg.repoid,
os.path.basename(pkg.url))`. -/
def binDest (out arch repoid url : Str) : Str :=
  pjoin out ["deps".data, "rpm".data, arch, repoid, basename url]

/-- Destination path of a source package, as computed in `RpmsLock.download`:
`os.path.join(output_dir, "deps", "rpm", "sources", arch.arch, pkg.repoid,
os.path.basename(pkg.url))`. -/
def srcDest (out arch repoid url : Str) : Str :=
  pjoin out ["deps".data, "rpm".data, "sources".data, arch, repoid, basename url]

/-- Is a key present in a Python-dict embedding? -/
def hasKey (d : List (Str × Str)) (k : Str) : Bool :=
  d.any (fun e => e.1 == k)

/-- `d[k] = v` on a Python dict: an existing key keeps its position and gets
the new value, a new key is appended (insertion order preserved). -/
def dictInsert (d : List (Str × Str)) (k v : Str) : List (Str × Str) :=
  if hasKey d k then d.map (fun e => if e.1 == k then (k, v) else e)
  else d ++ [(k, v)]

/-- Python dict lookup `d.get(k)`. -/
def dictGet (d : List (Str × Str)) (k : Str) : Option Str :=
  (d.find? (fun e => e.1 == k)).map (fun e => e.2)

/-- The `files` dict built by the loops in `RpmsLock.download`:
`files[pkg.url] = dest` for each package in order. -/
def buildFiles (pkgs : List Package) (destOf : Package → Str) : List (Str × Str) :=
  pkgs.foldl (fun d p => dictInsert d p.url (destOf p)) []

/-- The binary-package mapping handed to `async_download_files` for one
architecture group. -/
def Arch.binaryFiles (a : Arch) (out : Str) : List (Str × Str) :=
  buildFiles a.packages (fun p => binDest out a.arch p.repoid p.url)

/-- The source-package mapping handed to `async_download_files` for one
architecture group. -/
def Arch.sourceFiles (a : Arch) (out : Str) : List (Str × Str) :=
  buildFiles a.sources (fun p => srcDest out a.arch p.repoid p.url)

/-- Observable side effects of `RpmsLock.download`: directory creation and
synchronous calls to the external bounded-concurrency fetcher. -/
inductive Event where
  | mkdirs (dir : Str)
  | fetch (files : List (Str × Str)) (limit : Nat)
deriving DecidableEq

/-- The filesystem world: the set of directories that exist. -/
abbrev World := List Str

/-- `os.makedirs(dir, exist_ok=True)`: idempotent directory creation. -/
def mkdirsStep (w : World) (dir : Str) : World :=
  if dir ∈ w then w else dir :: w

/-- Events emitted while processing one architecture group in
`RpmsLock.download`: a `makedirs` per package, then one blocking fetcher call
for the binary mapping, then the same for the source mapping. -/
def archEvents (out : Str) (lim : Nat) (a : Arch) : List Event :=
  (a.packages.map (fun p => Event.mkdirs (pdirname (binDest out a.arch p.repoid p.url))))
    ++ [Event.fetch (a.binaryFiles out) lim]
    ++ (a.sources.map (fun p => Event.mkdirs (pdirname (srcDest out a.arch p.repoid p.url))))
    ++ [Event.fetch (a.sourceFiles out) lim]

/-- World update of one architecture group: all parent directories of its
destinations get created (`exist_ok=True`). -/
def archWorld (out : Str) (w : World) (a : Arch) : World :=
  let w1 := a.packages.foldl
    (fun w p => mkdirsStep w (pdirname (binDest out a.arch p.repoid p.url))) w
  a.sources.foldl
    (fun w p => mkdirsStep w (pdirname (srcDest out a.arch p.repoid p.url))) w1

/-- One architecture step of `RpmsLock.download`, threading the world and
appending the emitted events. -/
def downloadArch (out : Str) (lim : Nat) (wa : World × List Event) (a : Arch) :
    World × List Event :=
  (archWorld out wa.1 a, wa.2 ++ archEvents out lim a)

/-- `RpmsLock.download(output_dir)`: iterate the architecture groups in
order, creating destination directories and issuing one synchronous fetcher
call per (architecture, kind) partition. `lim` is
`get_config().concurrency_limit`, `w` the initial filesystem state. -/
def RpmsLock.download (l : RpmsLock) (out : Str) (lim : Nat) (w : World) :
    World × List Event :=
  l.arches.foldl (downloadArch out lim) (w, [])

/-- The ordered fetcher calls (mapping and concurrency limit) occurring in a
trace. -/
def fetchCalls (es : List Event) : List (List (Str × Str) × Nat) :=
  es.filterMap (fun e => match e with
    | Event.fetch files lim => some (files, lim)
    | Event.mkdirs _ => none)

/-- The ordered URL-to-destination mappings handed to the fetcher in a
trace, without the concurrency limit. -/
def fetchPlans (es : List Event) : List (List (Str × Str)) :=
  es.filterMap (fun e => match e with
    | Event.fetch files _ => some files
    | Event.mkdirs _ => none)

/-- A structured document as produced by `yaml.safe_load`. -/
inductive Yaml where
  | nullV
  | boolV (b : Bool)
  | intV (n : Int)
  | strV (s : Str)
  | seqV (items : List Yaml)
  | mapV (entries : List (Str × Yaml))

/-- Validation failure of the lockfile document (pydantic `ValidationError`
raised by `RpmsLock(**lockfile)`). -/
inductive SchemaErr where
  | notMap
  | missingField (name : Str)
  | wrongType (field : Str)
deriving DecidableEq

/-- Key lookup in a parsed mapping node. -/
def yLookup (es : List (Str × Yaml)) (k : Str) : Option Yaml :=
  (es.find? (fun e => e.1 == k)).map (fun e => e.2)

/-- A required field: absent keys are a validation error. -/
def reqField (es : List (Str × Yaml)) (k : Str) : Except SchemaErr Yaml :=
  match yLookup es k with
  | some y => Except.ok y
  | none => Except.error (SchemaErr.missingField k)

/-- A field declared `int` must hold an integer. -/
def asIntY (k : Str) (y : Yaml) : Except SchemaErr Int :=
  match y with
  | Yaml.intV n => Except.ok n
  | _ => Except.error (SchemaErr.wrongType k)

/-- A field declared `str` must hold a string. -/
def asStrY (k : Str) (y : Yaml) : Except SchemaErr Str :=
  match y with
  | Yaml.strV s => Except.ok s
  | _ => Except.error (SchemaErr.wrongType k)

/-- A field declared `List[...]` must hold a sequence. -/
def asSeqY (k : Str) (y : Yaml) : Except SchemaErr (List Yaml) :=
  match y with
  | Yaml.seqV l => Except.ok l
  | _ => Except.error (SchemaErr.wrongType k)

/-- Validation of one `Package` entry, fields in declaration order
(`repoid`, `url`, `checksum`, `size`); extra keys are ignored (pydantic
default). -/
def parsePackage (y : Yaml) : Except SchemaErr Package :=
  match y with
  | Yaml.mapV es => do
      let repoid ← asStrY ("repoid".data) (← reqField es ("repoid".data))
      let url ← asStrY ("url".data) (← reqField es ("url".data))
      let checksum ← asStrY ("checksum".data) (← reqField es ("checksum".data))
      let size ← asIntY ("size".data) (← reqField es ("size".data))
      Except.ok ⟨repoid, url, checksum, size⟩
  | _ => Except.error (SchemaErr.wrongType ("package".data))

/-- Validation of one `Arch` entry, fields in declaration order (`arch`,
`packages`, `sources`). -/
def parseArch (y : Yaml) : Except SchemaErr Arch :=
  match y with
  | Yaml.mapV es => do
      let archName ← asStrY ("arch".data) (← reqField es ("arch".data))
      let pkgsY ← asSeqY ("packages".data) (← reqField es ("packages".data))
      let pkgs ← pkgsY.mapM parsePackage
      let srcsY ← asSeqY ("sources".data) (← reqField es ("sources".data))
      let srcs ← srcsY.mapM parsePackage
      Except.ok ⟨archName, pkgs, srcs⟩
  | _ => Except.error (SchemaErr.wrongType ("arch".data))

/-- `RpmsLock(**lockfile)`: pydantic validation of the loaded document,
fields in declaration order (`lockfileVersion`, `lockfileVendor`,
`lockfileType`, `arches`). -/
def RpmsLock.fromYaml (y : Yaml) : Except SchemaErr RpmsLock :=
  match y with
  | Yaml.mapV es => do
      let ver ← asIntY ("lockfileVersion".data) (← reqField es ("lockfileVersion".data))
      let vendor ← asStrY ("lockfileVendor".data) (← reqField es ("lockfileVendor".data))
      let ltype ← asStrY ("lockfileType".data) (← reqField es ("lockfileType".data))
      let archesY ← asSeqY ("arches".data) (← reqField es ("arches".data))
      let arches ← archesY.mapM parseArch
      Except.ok ⟨ver, vendor, ltype, arches⟩
  | _ => Except.error SchemaErr.notMap

/-- A failure of `fetch_rpm_source`: either `open` raised
`FileNotFoundError` (no file at the path) or pydantic validation failed.
The source has no handler turning either into a schema-style error. -/
inductive FetchError where
  | fileNotFound (path : Str)
  | validationError (e : SchemaErr)
deriving DecidableEq

/-- The readable filesystem: a map from path to the parsed document
`yaml.safe_load` would produce for its contents. -/
abbrev FileSys := Str → Option Yaml

/-- `RpmsLock.from_file(lockfile_path)`: `open` the path (raising
`FileNotFoundError` when absent), `yaml.safe_load` it, and validate via
`cls(**lockfile)`. -/
def RpmsLock.from_file (fs : FileSys) (path : Str) : Except FetchError RpmsLock :=
  match fs path with
  | none => Except.error (FetchError.fileNotFound path)
  | some doc =>
    match RpmsLock.fromYaml doc with
    | Except.error e => Except.error (FetchError.validationError e)
    | Except.ok l => Except.ok l

/-- The incoming request (`cachi2.core.models.input.Request`); only the
fields relevant to this plugin are carried. -/
structure Request where
  source_dir : Str
  output_dir : Str
  packages : List Str
  flags : List Str

/-- Modelled from the spec: one SBOM component
(`cachi2.core.models.sbom.Component`, not under src/) — package name,
version and package URL. -/
structure Component where
  name : Str
  version : Str
  purl : Str
deriving DecidableEq

/-- `fetch_rpm_source(request)`: read and validate the lockfile at the
fixed relative path `rpms.lock.yaml`, run `RpmsLock.download` against the
request's output directory, and return an output whose component list is
the (never populated) empty list. -/
def fetch_rpm_source (req : Request) (fs : FileSys) (lim : Nat) (w : World) :
    Except FetchError (List Component × List Event) :=
  match RpmsLock.from_file fs ("rpms.lock.yaml".data) with
  | Except.error e => Except.error e
  | Except.ok l => Except.ok ([], (RpmsLock.download l req.output_dir lim w).2)

/-- Modelled from the spec: the downloaded-file metadata map (§3) built by
the fetch run — each destination path mapped to the lockfile fields needed
for verification and SBOM generation (`checksum`, `size`, `url`, and the
binary-vs-source flag); the Integrity Verifier and SBOM Builder of the
newer module layout are not under src/. -/
structure FileMeta where
  package : Bool
  url : Str
  checksum : Str
  size : Int
deriving DecidableEq

/-- Modelled from the spec: the metadata map lists, per architecture group,
every binary package (flag `true`) and every source package (flag `false`)
under its derived destination path. -/
def buildMetadata (l : RpmsLock) (out : Str) : List (Str × FileMeta) :=
  (l.arches.map (fun a =>
    a.packages.map (fun p =>
      (binDest out a.arch p.repoid p.url, FileMeta.mk true p.url p.checksum p.size))
      ++ a.sources.map (fun p =>
        (srcDest out a.arch p.repoid p.url, FileMeta.mk false p.url p.checksum p.size)))).flatten

/-- Modelled from the spec: the family of supported digest algorithms
(`hashlib`): which algorithm names are recognized, and the hex digest each
computes over a byte string. -/
structure HashFamily where
  supported : Str → Bool
  digest : Str → List Nat → Str

/-- Modelled from the spec: the `IntegrityError` taxonomy of the Integrity
Verifier (§4.3, §7) — size mismatch, unrecognized checksum-algorithm
prefix, digest mismatch. -/
inductive IntegrityError where
  | unexpectedSize (path : Str)
  | unsupportedAlg (alg : Str)
  | unmatchedChecksum (path : Str)
deriving DecidableEq

/-- The user-facing message of each integrity failure, naming the offending
path or algorithm. -/
def IntegrityError.message : IntegrityError → Str
  | IntegrityError.unexpectedSize p => "Unexpected file size of ".data ++ p
  | IntegrityError.unsupportedAlg a => "Unsupported hashing algorithm ".data ++ a
  | IntegrityError.unmatchedChecksum p => "Unmatched checksum of ".data ++ p

/-- The algorithm prefix of a checksum string: the text before the first
colon. -/
def checksumAlg (c : Str) : Str :=
  c.takeWhile (fun ch => ch ≠ ':')

/-- The digest portion of a checksum string: the text after the first
colon. -/
def checksumHex (c : Str) : Str :=
  (c.dropWhile (fun ch => ch ≠ ':')).drop 1

/-- The on-disk byte contents of every path (a missing file reads as
empty). -/
abbrev DiskState := Str → List Nat

/-- Modelled from the spec: the per-artifact check of the Integrity
Verifier (§4.3), short-circuiting in the fixed order size, algorithm,
digest; `none` means the artifact matches. -/
def checkArtifact (H : HashFamily) (disk : DiskState) (path : Str) (m : FileMeta) :
    Option IntegrityError :=
  if ((disk path).length : Int) ≠ m.size then
    some (IntegrityError.unexpectedSize path)
  else if ¬ H.supported (checksumAlg m.checksum) then
    some (IntegrityError.unsupportedAlg (checksumAlg m.checksum))
  else if H.digest (checksumAlg m.checksum) (disk path) ≠ checksumHex m.checksum then
    some (IntegrityError.unmatchedChecksum path)
  else none

/-- Modelled from the spec: `verify(downloaded_file_metadata_map)` (§4.3)
— walk the metadata map in order and fail on the first artifact whose
on-disk size or checksum does not match, checking per artifact first the
size, then the checksum-algorithm prefix, then the digest; succeed silently
when every artifact matches. -/
def verify_downloaded (H : HashFamily) (disk : DiskState) :
    List (Str × FileMeta) → Except IntegrityError Unit
  | [] => Except.ok ()
  | (path, m) :: rest =>
    if ((disk path).length : Int) ≠ m.size then
      Except.error (IntegrityError.unexpectedSize path)
    else if ¬ H.supported (checksumAlg m.checksum) then
      Except.error (IntegrityError.unsupportedAlg (checksumAlg m.checksum))
    else if H.digest (checksumAlg m.checksum) (disk path) ≠ checksumHex m.checksum then
      Except.error (IntegrityError.unmatchedChecksum path)
    else verify_downloaded H disk rest

/-- Modelled from the spec: the six identity fields the external `rpm`
query emits for one downloaded artifact (§4.4, §6). -/
structure QueryResult where
  name : Str
  version : Str
  release : Str
  arch : Str
  vendor : Str
  epoch : Str

/-- UTF-8 encoding of one character, as a list of byte values. -/
def utf8Bytes (c : Char) : List Nat :=
  let n := c.toNat
  if n < 128 then [n]
  else if n < 2048 then [192 + n / 64, 128 + n % 64]
  else if n < 65536 then [224 + n / 4096, 128 + (n / 64) % 64, 128 + n % 64]
  else [240 + n / 262144, 128 + (n / 4096) % 64, 128 + (n / 64) % 64, 128 + n % 64]

/-- An uppercase hexadecimal digit. -/
def hexDigitChar (n : Nat) : Char :=
  if n < 10 then Char.ofNat (48 + n) else Char.ofNat (55 + n)

/-- Percent-encoding of one byte, `%XX` with uppercase hex. -/
def percentByte (b : Nat) : Str :=
  ['%', hexDigitChar (b / 16), hexDigitChar (b % 16)]

/-- Characters `urllib.parse.quote` keeps verbatim with the default
`safe="/"`: ASCII letters and digits, `_`, `.`, `-`, `~`, and `/`. -/
def isQuoteSafe (c : Char) : Bool :=
  c.isAlpha || c.isDigit || c == '_' || c == '.' || c == '-' || c == '~' || c == '/'

/-- Modelled from the spec: `urllib.parse.quote(url)` — percent-encode
every byte of every non-safe character. -/
def pyQuote (s : Str) : Str :=
  (s.map (fun c =>
    if isQuoteSafe c then [c] else ((utf8Bytes c).map percentByte).flatten)).flatten

/-- Modelled from the spec: the package URL composed by the Metadata
Extractor (§4.4): scheme `pkg:rpm`, namespace = vendor, name, version field
`<version>-<release>` with the epoch prefixed as `<epoch>:` only when
non-empty, query parameter `arch`, and query parameter `download_url` equal
to the percent-encoded original download URL. -/
def purlOf (q : QueryResult) (url : Str) : Str :=
  "pkg:rpm/".data ++ q.vendor ++ "/".data ++ q.name ++ "@".data
    ++ (if q.epoch = [] then [] else q.epoch ++ ":".data)
    ++ q.version ++ "-".data ++ q.release
    ++ "?arch=".data ++ q.arch ++ "&download_url=".data ++ pyQuote url

/-- Modelled from the spec: `_generate_sbom_components` (§4.4, not under
src/) — walk the metadata map in order, query each path flagged as a binary
package, and emit one component; source artifacts are skipped. -/
def generate_sbom_components (query : Str → QueryResult) :
    List (Str × FileMeta) → List Component
  | [] => []
  | e :: rest =>
    if e.2.package then
      Component.mk (query e.1).name (query e.1).version (purlOf (query e.1) e.2.url)
        :: generate_sbom_components query rest
    else generate_sbom_components query rest

/-- The binary-package URL of the spec's worked scenario (§8). -/
def binUrlStr : Str :=
  "https://example.com/x86_64/Packages/v/vim-enhanced-9.1.158-1.fc38.x86_64.rpm".data

/-- The source-package URL of the spec's worked scenario (§8). -/
def srcUrlStr : Str :=
  "https://example.com/source/tree/Packages/v/vim-9.1.158-1.fc38.src.rpm".data

/-- The parsed lockfile of the spec's worked scenario (§8): one `x86_64`
architecture, one binary package with repoid `updates`, one source package
with repoid `updates-source`. -/
def scenarioLock : RpmsLock :=
  RpmsLock.mk 1 ("redhat".data) ("rpm".data)
    [Arch.mk ("x86_64".data)
      [Package.mk ("updates".data) binUrlStr
        ("sha256:21bb2a09852e75a693d277435c162e1a910835c53c3cee7636dd552d450ed0f1".data)
        1976132]
      [Package.mk ("updates-source".data) srcUrlStr
        ("sha256:94803b5e1ff601bf4009f223cb53037cdfa2fe559d90251bbe85a3a5bc6d2aab".data)
        14735448]]

/-- A structured document carrying exactly the top-level keys the claimed
schema requires (`lockfileVersion`, `lockfileVendor`, `arches`) — the raw
content the repository's own lockfile-model test parses successfully. -/
def docNoType : Yaml :=
  Yaml.mapV
    [("lockfileVendor".data, Yaml.strV ("redhat".data)),
     ("lockfileVersion".data, Yaml.intV 1),
     ("arches".data, Yaml.seqV [])]

/-- One package entry of the scenario document, keys in lockfile order. -/
def pkgYaml : Yaml :=
  Yaml.mapV
    [("url".data, Yaml.strV binUrlStr),
     ("checksum".data,
       Yaml.strV ("sha256:21bb2a09852e75a693d277435c162e1a910835c53c3cee7636dd552d450ed0f1".data)),
     ("size".data, Yaml.intV 1976132),
     ("repoid".data, Yaml.strV ("updates".data))]

/-- The scenario document using the vendor-variant key `source` for the
source artifacts, as the repository's lockfile fixture does. -/
def docSingularSource : Yaml :=
  Yaml.mapV
    [("lockfileVersion".data, Yaml.intV 1),
     ("lockfileVendor".data, Yaml.strV ("redhat".data)),
     ("lockfileType".data, Yaml.strV ("rpm".data)),
     ("arches".data, Yaml.seqV
       [Yaml.mapV
         [("arch".data, Yaml.strV ("x86_64".data)),
          ("packages".data, Yaml.seqV [pkgYaml]),
          ("source".data, Yaml.seqV [])]])]

/-- The scenario document in exactly the shape `RpmsLock` declares
(`lockfileType` present, plural `sources`). -/
def docPluralSources : Yaml :=
  Yaml.mapV
    [("lockfileVersion".data, Yaml.intV 1),
     ("lockfileVendor".data, Yaml.strV ("redhat".data)),
     ("lockfileType".data, Yaml.strV ("rpm".data)),
     ("arches".data, Yaml.seqV
       [Yaml.mapV
         [("arch".data, Yaml.strV ("x86_64".data)),
          ("packages".data, Yaml.seqV [pkgYaml]),
          ("sources".data, Yaml.seqV [])]])]

/-- The lockfile value that `RpmsLock.fromYaml` produces for
`docPluralSources`: one binary package, no source packages. -/
def binOnlyLock : RpmsLock :=
  RpmsLock.mk 1 ("redhat".data) ("rpm".data)
    [Arch.mk ("x86_64".data)
      [Package.mk ("updates".data) binUrlStr
        ("sha256:21bb2a09852e75a693d277435c162e1a910835c53c3cee7636dd552d450ed0f1".data)
        1976132]
      []]

/-- A filesystem holding exactly one file: the scenario lockfile document
at the fixed relative path `rpms.lock.yaml`. -/
def scenarioFs : FileSys :=
  fun p => if p == ("rpms.lock.yaml".data) then some docPluralSources else none

/-! Path lemmas: under POSIX-sane components (nonempty, slash-free) the
join used by `RpmsLock.download` is injective in its components. -/

/-- The concatenation `"/" ++ c₁ ++ "/" ++ c₂ ++ ...` that `pjoin` produces
from slash-free components. -/
def slashCat : List Str → Str
  | [] => []
  | c :: rest => '/' :: (c ++ slashCat rest)

theorem basename_noSlash (s : Str) : '/' ∉ basename s := by
  intro h
  unfold basename at h
  rw [List.mem_reverse] at h
  have h2 := List.mem_takeWhile_imp h
  simp at h2

theorem joinOne_good (path c : Str) (hcs : '/' ∉ c) (hp : path ≠ [])
    (hpe : endsWithSlash path = false) : joinOne path c = path ++ '/' :: c := by
  have h1 : startsWithSlash c = false := by
    cases c with
    | nil => rfl
    | cons c0 cs =>
      have hne : c0 ≠ '/' := by
        intro he
        exact hcs (by rw [← he]; exact List.mem_cons_self _ _)
      simp [startsWithSlash, hne]
  unfold joinOne
  simp [h1, hp, hpe]

theorem ends_false_append (path c : Str) (hcs : '/' ∉ c) (hc : c ≠ []) :
    endsWithSlash (path ++ '/' :: c) = false := by
  obtain ⟨x, hx⟩ : ∃ x, c.getLast? = some x := by
    cases h : c.getLast? with
    | some x => exact ⟨x, rfl⟩
    | none => exact absurd (List.getLast?_eq_none_iff.mp h) hc
  have hxc : x ∈ c := by
    obtain ⟨hne, rfl⟩ := List.mem_getLast?_eq_getLast hx
    exact List.getLast_mem hne
  have hxs : x ≠ '/' := fun he => hcs (he ▸ hxc)
  have hg : (path ++ '/' :: c).getLast? = some x := by
    rw [List.getLast?_append]
    have h2 : ('/' :: c).getLast? = some x := by
      cases c with
      | nil => exact absurd rfl hc
      | cons b bs => rw [List.getLast?_cons_cons]; exact hx
    rw [h2]
    rfl
  unfold endsWithSlash
  rw [hg]
  simp [hxs]

theorem pjoin_good : ∀ (comps : List Str) (base : Str),
    (∀ c ∈ comps, '/' ∉ c ∧ c ≠ []) → base ≠ [] → endsWithSlash base = false →
    pjoin base comps = base ++ slashCat comps := by
  intro comps
  induction comps with
  | nil =>
    intro base _ _ _
    simp [pjoin, slashCat]
  | cons c rest ih =>
    intro base h hb he
    have hc := h c (List.mem_cons_self c rest)
    have hstep : pjoin base (c :: rest) = pjoin (joinOne base c) rest := rfl
    rw [hstep, joinOne_good base c hc.1 hb he,
      ih (base ++ '/' :: c) (fun x hx => h x (List.mem_cons_of_mem c hx))
        (by simp) (ends_false_append base c hc.1 hc.2)]
    simp [slashCat]

theorem chunk_inj : ∀ (c₁ c₂ t₁ t₂ : Str), '/' ∉ c₁ → '/' ∉ c₂ →
    (t₁ = [] ∨ ∃ r, t₁ = '/' :: r) → (t₂ = [] ∨ ∃ r, t₂ = '/' :: r) →
    c₁ ++ t₁ = c₂ ++ t₂ → c₁ = c₂ ∧ t₁ = t₂ := by
  intro c₁
  induction c₁ with
  | nil =>
    intro c₂ t₁ t₂ h1 h2 s1 s2 heq
    cases c₂ with
    | nil => exact ⟨rfl, heq⟩
    | cons d ds =>
      exfalso
      simp only [List.nil_append, List.cons_append] at heq
      rcases s1 with rfl | ⟨r, rfl⟩
      · simp at heq
      · have hd : '/' = d := by
          injection heq
        exact h2 (by rw [hd]; exact List.mem_cons_self _ _)
  | cons a as ih =>
    intro c₂ t₁ t₂ h1 h2 s1 s2 heq
    cases c₂ with
    | nil =>
      exfalso
      simp only [List.nil_append, List.cons_append] at heq
      rcases s2 with rfl | ⟨r, rfl⟩
      · simp at heq
      · have hd : a = '/' := by
          injection heq.symm with hh _
          exact hh.symm
        exact h1 (by rw [← hd]; exact List.mem_cons_self _ _)
    | cons d ds =>
      simp only [List.cons_append] at heq
      injection heq with hh ht
      have has : '/' ∉ as := fun hx => h1 (List.mem_cons_of_mem a hx)
      have hds : '/' ∉ ds := fun hx => h2 (List.mem_cons_of_mem d hx)
      obtain ⟨he, ht'⟩ := ih ds t₁ t₂ has hds s1 s2 ht
      exact ⟨by rw [hh, he], ht'⟩

theorem slashCat_shape (l : List Str) :
    slashCat l = [] ∨ ∃ r, slashCat l = '/' :: r := by
  cases l with
  | nil => exact Or.inl rfl
  | cons x xs => exact Or.inr ⟨x ++ slashCat xs, rfl⟩

theorem slashCat_inj : ∀ (l₁ l₂ : List Str),
    (∀ c ∈ l₁, '/' ∉ c) → (∀ c ∈ l₂, '/' ∉ c) →
    slashCat l₁ = slashCat l₂ → l₁ = l₂ := by
  intro l₁
  induction l₁ with
  | nil =>
    intro l₂ h1 h2 heq
    cases l₂ with
    | nil => rfl
    | cons d ds => exact absurd heq (by simp [slashCat])
  | cons c cs ih =>
    intro l₂ h1 h2 heq
    cases l₂ with
    | nil => exact absurd heq (by simp [slashCat])
    | cons d ds =>
      rw [slashCat, slashCat] at heq
      injection heq with _ heq
      obtain ⟨hcd, hrest⟩ := chunk_inj c d (slashCat cs) (slashCat ds)
        (h1 c (List.mem_cons_self c cs)) (h2 d (List.mem_cons_self d ds))
        (slashCat_shape cs) (slashCat_shape ds) heq
      rw [hcd, ih ds (fun x hx => h1 x (List.mem_cons_of_mem c hx))
        (fun x hx => h2 x (List.mem_cons_of_mem d hx)) hrest]

theorem joinOne_deps (out : Str) :
    joinOne out ("deps".data) ≠ [] ∧ endsWithSlash (joinOne out ("deps".data)) = false := by
  have key : ∀ pre : Str, (pre ++ "deps".data) ≠ []
      ∧ endsWithSlash (pre ++ "deps".data) = false := by
    intro pre
    constructor
    · simp
    · unfold endsWithSlash
      rw [List.getLast?_append,
        show ("deps".data).getLast? = some 's' from by decide]
      simp [Option.or]
  unfold joinOne
  simp only [show startsWithSlash ("deps".data) = false from by decide,
    Bool.false_eq_true, if_false]
  split
  · exact key out
  · rw [show out ++ '/' :: "deps".data = (out ++ ['/']) ++ "deps".data from by simp]
    exact key (out ++ ['/'])

theorem binDest_decompose (out a r u : Str)
    (ha : '/' ∉ a ∧ a ≠ []) (hr : '/' ∉ r ∧ r ≠ []) (hu : basename u ≠ []) :
    binDest out a r u
      = joinOne out ("deps".data) ++ slashCat ["rpm".data, a, r, basename u] := by
  have hcomps : ∀ c ∈ (["rpm".data, a, r, basename u] : List Str), '/' ∉ c ∧ c ≠ [] := by
    intro c hc
    simp only [List.mem_cons, List.not_mem_nil, or_false] at hc
    rcases hc with rfl | rfl | rfl | rfl
    · exact ⟨by decide, by decide⟩
    · exact ha
    · exact hr
    · exact ⟨basename_noSlash u, hu⟩
  calc binDest out a r u
      = pjoin (joinOne out ("deps".data)) ["rpm".data, a, r, basename u] := rfl
    _ = joinOne out ("deps".data) ++ slashCat ["rpm".data, a, r, basename u] :=
      pjoin_good _ _ hcomps (joinOne_deps out).1 (joinOne_deps out).2

theorem srcDest_decompose (out a r u : Str)
    (ha : '/' ∉ a ∧ a ≠ []) (hr : '/' ∉ r ∧ r ≠ []) (hu : basename u ≠ []) :
    srcDest out a r u
      = joinOne out ("deps".data)
        ++ slashCat ["rpm".data, "sources".data, a, r, basename u] := by
  have hcomps : ∀ c ∈ (["rpm".data, "sources".data, a, r, basename u] : List Str),
      '/' ∉ c ∧ c ≠ [] := by
    intro c hc
    simp only [List.mem_cons, List.not_mem_nil, or_false] at hc
    rcases hc with rfl | rfl | rfl | rfl | rfl
    · exact ⟨by decide, by decide⟩
    · exact ⟨by decide, by decide⟩
    · exact ha
    · exact hr
    · exact ⟨basename_noSlash u, hu⟩
  calc srcDest out a r u
      = pjoin (joinOne out ("deps".data))
          ["rpm".data, "sources".data, a, r, basename u] := rfl
    _ = _ :=
      pjoin_good _ _ hcomps (joinOne_deps out).1 (joinOne_deps out).2

/-- C6 (amended): provided architecture identifiers and repoids are
nonempty and slash-free and every URL has a nonempty basename, the
binary-package destination paths are disjoint from the source-package
destination paths, and the derivation is injective up to the
(kind, arch, repoid, url-basename) key: two entries of the same kind
receive the same destination path only when they agree on architecture,
repoid and URL basename. -/
theorem c6_dest_paths_disjoint_and_injective
    (out a₁ r₁ u₁ a₂ r₂ u₂ : Str)
    (ha₁ : '/' ∉ a₁ ∧ a₁ ≠ []) (hr₁ : '/' ∉ r₁ ∧ r₁ ≠ [])
    (ha₂ : '/' ∉ a₂ ∧ a₂ ≠ []) (hr₂ : '/' ∉ r₂ ∧ r₂ ≠ [])
    (hu₁ : basename u₁ ≠ []) (hu₂ : basename u₂ ≠ []) :
    binDest out a₁ r₁ u₁ ≠ srcDest out a₂ r₂ u₂
    ∧ (binDest out a₁ r₁ u₁ = binDest out a₂ r₂ u₂ →
        a₁ = a₂ ∧ r₁ = r₂ ∧ basename u₁ = basename u₂)
    ∧ (srcDest out a₁ r₁ u₁ = srcDest out a₂ r₂ u₂ →
        a₁ = a₂ ∧ r₁ = r₂ ∧ basename u₁ = basename u₂) := by
  have hbin : ∀ (a r u : Str), '/' ∉ a → '/' ∉ r →
      ∀ c ∈ (["rpm".data, a, r, basename u] : List Str), '/' ∉ c := by
    intro a r u ha hr c hc
    simp only [List.mem_cons, List.not_mem_nil, or_false] at hc
    rcases hc with rfl | rfl | rfl | rfl
    · decide
    · exact ha
    · exact hr
    · exact basename_noSlash u
  have hsrc : ∀ (a r u : Str), '/' ∉ a → '/' ∉ r →
      ∀ c ∈ (["rpm".data, "sources".data, a, r, basename u] : List Str), '/' ∉ c := by
    intro a r u ha hr c hc
    simp only [List.mem_cons, List.not_mem_nil, or_false] at hc
    rcases hc with rfl | rfl | rfl | rfl | rfl
    · decide
    · decide
    · exact ha
    · exact hr
    · exact basename_noSlash u
  refine ⟨?_, ?_, ?_⟩
  · intro h
    rw [binDest_decompose out a₁ r₁ u₁ ha₁ hr₁ hu₁,
      srcDest_decompose out a₂ r₂ u₂ ha₂ hr₂ hu₂] at h
    have h3 := slashCat_inj _ _ (hbin a₁ r₁ u₁ ha₁.1 hr₁.1)
      (hsrc a₂ r₂ u₂ ha₂.1 hr₂.1) (List.append_cancel_left h)
    simpa using congrArg List.length h3
  · intro h
    rw [binDest_decompose out a₁ r₁ u₁ ha₁ hr₁ hu₁,
      binDest_decompose out a₂ r₂ u₂ ha₂ hr₂ hu₂] at h
    have h3 := slashCat_inj _ _ (hbin a₁ r₁ u₁ ha₁.1 hr₁.1)
      (hbin a₂ r₂ u₂ ha₂.1 hr₂.1) (List.append_cancel_left h)
    simp only [List.cons.injEq, and_true] at h3
    exact ⟨h3.2.1, h3.2.2.1, h3.2.2.2⟩
  · intro h
    rw [srcDest_decompose out a₁ r₁ u₁ ha₁ hr₁ hu₁,
      srcDest_decompose out a₂ r₂ u₂ ha₂ hr₂ hu₂] at h
    have h3 := slashCat_inj _ _ (hsrc a₁ r₁ u₁ ha₁.1 hr₁.1)
      (hsrc a₂ r₂ u₂ ha₂.1 hr₂.1) (List.append_cancel_left h)
    simp only [List.cons.injEq, and_true] at h3
    exact ⟨h3.2.2.1, h3.2.2.2.1, h3.2.2.2.2⟩

/-- C6 counterexample: the claim as stated is false — two distinct Package
entries of one partition (same repoid, different URLs sharing a file
basename) map to the same destination path. -/
theorem c6_counterexample :
    Package.mk ("updates".data) ("https://a.example/x/foo-1.0.rpm".data)
        ("sha256:aa".data) 1
      ≠ Package.mk ("updates".data) ("https://b.example/y/foo-1.0.rpm".data)
        ("sha256:bb".data) 2
    ∧ binDest ("output".data) ("x86_64".data) ("updates".data)
        ("https://a.example/x/foo-1.0.rpm".data)
      = binDest ("output".data) ("x86_64".data) ("updates".data)
        ("https://b.example/y/foo-1.0.rpm".data) := by
  constructor
  · decide
  · decide

/-- C6 witness: the amended statement applied to the spec's worked
scenario — the binary and source destinations never coincide there. -/
theorem c6_witness :
    binDest ("output".data) ("x86_64".data) ("updates".data) binUrlStr
      ≠ srcDest ("output".data) ("x86_64".data) ("updates-source".data) srcUrlStr :=
  (c6_dest_paths_disjoint_and_injective ("output".data) ("x86_64".data)
    ("updates".data) binUrlStr ("x86_64".data) ("updates-source".data) srcUrlStr
    (by decide) (by decide) (by decide) (by decide) (by decide) (by decide)).1

/-! Trace lemmas for `RpmsLock.download`. -/

theorem foldl_downloadArch_snd (out : Str) (lim : Nat) :
    ∀ (arches : List Arch) (wa : World × List Event),
    (arches.foldl (downloadArch out lim) wa).2
      = wa.2 ++ (arches.map (archEvents out lim)).flatten := by
  intro arches
  induction arches with
  | nil => intro wa; simp
  | cons a rest ih =>
    intro wa
    rw [List.foldl_cons, ih]
    simp [downloadArch]

theorem download_events (l : RpmsLock) (out : Str) (lim : Nat) (w : World) :
    (RpmsLock.download l out lim w).2 = (l.arches.map (archEvents out lim)).flatten := by
  unfold RpmsLock.download
  rw [foldl_downloadArch_snd]
  rfl

theorem filterMap_map_none {α β γ : Type} (g : α → β) (f : β → Option γ)
    (h : ∀ a, f (g a) = none) (l : List α) : (l.map g).filterMap f = [] := by
  induction l with
  | nil => rfl
  | cons a rest ih => simp [h, ih]

theorem fetchCalls_archEvents (out : Str) (lim : Nat) (a : Arch) :
    fetchCalls (archEvents out lim a)
      = [(a.binaryFiles out, lim), (a.sourceFiles out, lim)] := by
  unfold fetchCalls archEvents
  rw [List.filterMap_append, List.filterMap_append, List.filterMap_append]
  rw [filterMap_map_none _ _ (fun p => rfl), filterMap_map_none _ _ (fun p => rfl)]
  rfl

theorem fetchPlans_archEvents (out : Str) (lim : Nat) (a : Arch) :
    fetchPlans (archEvents out lim a) = [a.binaryFiles out, a.sourceFiles out] := by
  unfold fetchPlans archEvents
  rw [List.filterMap_append, List.filterMap_append, List.filterMap_append]
  rw [filterMap_map_none _ _ (fun p => rfl), filterMap_map_none _ _ (fun p => rfl)]
  rfl

theorem fetchCalls_download (l : RpmsLock) (out : Str) (lim : Nat) (w : World) :
    fetchCalls (RpmsLock.download l out lim w).2
      = (l.arches.map (fun a =>
          [(a.binaryFiles out, lim), (a.sourceFiles out, lim)])).flatten := by
  rw [download_events]
  induction l.arches with
  | nil => rfl
  | cons a rest ih =>
    simp only [List.map_cons, List.flatten_cons]
    unfold fetchCalls at ih ⊢
    rw [List.filterMap_append, ih, ← fetchCalls_archEvents out lim a]
    rfl

theorem fetchPlans_download (l : RpmsLock) (out : Str) (lim : Nat) (w : World) :
    fetchPlans (RpmsLock.download l out lim w).2
      = (l.arches.map (fun a => [a.binaryFiles out, a.sourceFiles out])).flatten := by
  rw [download_events]
  induction l.arches with
  | nil => rfl
  | cons a rest ih =>
    simp only [List.map_cons, List.flatten_cons]
    unfold fetchPlans at ih ⊢
    rw [List.filterMap_append, ih, ← fetchPlans_archEvents out lim a]
    rfl

/-- C7: one download run hands the per-partition mappings to the external
fetcher as fully sequential phases — the trace of fetcher calls is exactly,
in order: for each architecture group of the lockfile in turn, one blocking
call for its binary mapping followed by one blocking call for its source
mapping, each carrying the configured concurrency limit, so at most one
concurrency-limited batch is ever in flight. -/
theorem c7_sequential_fetch_phases (l : RpmsLock) (out : Str) (lim : Nat) (w : World) :
    fetchCalls (RpmsLock.download l out lim w).2
      = (l.arches.map (fun a =>
          [(a.binaryFiles out, lim), (a.sourceFiles out, lim)])).flatten :=
  fetchCalls_download l out lim w

/-- C8: destination-path planning is deterministic — the URL-to-destination
mappings handed to the fetcher depend only on the parsed lockfile and the
output directory, and are identical across two runs regardless of the
initial filesystem state (or of the configured concurrency limit), so
re-running on an unchanged lockfile yields an identical layout. -/
theorem c8_plan_deterministic (l : RpmsLock) (out : Str)
    (lim₁ lim₂ : Nat) (w₁ w₂ : World) :
    fetchPlans (RpmsLock.download l out lim₁ w₁).2
      = fetchPlans (RpmsLock.download l out lim₂ w₂).2 := by
  rw [fetchPlans_download, fetchPlans_download]

/-- C3 (as the code behaves): on the spec's worked scenario the fetch plan
maps the binary URL to `<output>/deps/rpm/x86_64/updates/<basename>` and
the source URL to `<output>/deps/rpm/sources/x86_64/updates-source/<basename>`
— not to the `<output>/x86_64/updates/<basename>` and
`<output>/x86_64/updates-source/<basename>` paths the claim states. -/
theorem c3_scenario_plan_uses_deps_rpm_paths :
    fetchCalls (RpmsLock.download scenarioLock ("output".data) 5 []).2
      = [([(binUrlStr,
            "output/deps/rpm/x86_64/updates/vim-enhanced-9.1.158-1.fc38.x86_64.rpm".data)], 5),
         ([(srcUrlStr,
            "output/deps/rpm/sources/x86_64/updates-source/vim-9.1.158-1.fc38.src.rpm".data)], 5)]
    ∧ "output/deps/rpm/x86_64/updates/vim-enhanced-9.1.158-1.fc38.x86_64.rpm".data
      ≠ "output/x86_64/updates/vim-enhanced-9.1.158-1.fc38.x86_64.rpm".data
    ∧ "output/deps/rpm/sources/x86_64/updates-source/vim-9.1.158-1.fc38.src.rpm".data
      ≠ "output/x86_64/updates-source/vim-9.1.158-1.fc38.src.rpm".data := by
  refine ⟨?_, by decide, by decide⟩
  decide

/-- C4 (as the code behaves): with no file at the fixed lockfile path the
run fails with the bare `FileNotFoundError` that `open` raises — which is
not the validation-failure (schema-style) error of the plugin. No event is
emitted before the failure. -/
theorem c4_missing_lockfile_error_is_file_not_found :
    fetch_rpm_source (Request.mk ("src".data) ("out".data) [] []) (fun _ => none) 5 []
      = Except.error (FetchError.fileNotFound ("rpms.lock.yaml".data))
    ∧ ∀ e, FetchError.fileNotFound ("rpms.lock.yaml".data)
        ≠ FetchError.validationError e :=
  ⟨rfl, fun _ h => FetchError.noConfusion h⟩

/-- C5 (as the code behaves): a document carrying exactly the top-level
keys the claim lists (`lockfileVersion`, `lockfileVendor`, `arches`) is
rejected for lacking `lockfileType`; a document using the vendor-variant
key `source` is rejected for lacking `sources`; only the shape with
`lockfileType` and plural `sources` parses. -/
theorem c5_parse_rejects_claimed_schema :
    RpmsLock.fromYaml docNoType
      = Except.error (SchemaErr.missingField ("lockfileType".data))
    ∧ RpmsLock.fromYaml docSingularSource
      = Except.error (SchemaErr.missingField ("sources".data))
    ∧ RpmsLock.fromYaml docPluralSources
      = Except.ok (RpmsLock.mk 1 ("redhat".data) ("rpm".data)
          [Arch.mk ("x86_64".data)
            [Package.mk ("updates".data) binUrlStr
              ("sha256:21bb2a09852e75a693d277435c162e1a910835c53c3cee7636dd552d450ed0f1".data)
              1976132]
            []]) :=
  ⟨rfl, rfl, rfl⟩

/-- C9: the lockfile is read at the fixed literal relative path
`rpms.lock.yaml` — of the request only the output directory influences the
result, and only the filesystem's content at that one path matters. -/
theorem c9_fixed_lockfile_path :
    (∀ (r₁ r₂ : Request) (fs : FileSys) (lim : Nat) (w : World),
      r₁.output_dir = r₂.output_dir →
      fetch_rpm_source r₁ fs lim w = fetch_rpm_source r₂ fs lim w)
    ∧ (∀ (r : Request) (fs₁ fs₂ : FileSys) (lim : Nat) (w : World),
      fs₁ ("rpms.lock.yaml".data) = fs₂ ("rpms.lock.yaml".data) →
      fetch_rpm_source r fs₁ lim w = fetch_rpm_source r fs₂ lim w) := by
  constructor
  · intro r₁ r₂ fs lim w h
    unfold fetch_rpm_source
    rw [h]
  · intro r fs₁ fs₂ lim w h
    unfold fetch_rpm_source RpmsLock.from_file
    rw [h]

/-- C9 witness: two requests differing in every field but the output
directory, against the same filesystem, behave identically. -/
theorem c9_witness :
    fetch_rpm_source (Request.mk ("s".data) ("o".data) [("p".data)] [])
        (fun _ => none) 5 []
      = fetch_rpm_source (Request.mk ("t".data) ("o".data) [] [("f".data)])
        (fun _ => none) 5 [] :=
  c9_fixed_lockfile_path.1 _ _ _ _ _ rfl

/-! Dict lemmas: Python dict insertion semantics of the `files` mapping. -/

theorem find?_update_self (d : List (Str × Str)) (k v : Str) (hk : hasKey d k = true) :
    (d.map (fun e => if e.1 == k then (k, v) else e)).find? (fun e => e.1 == k)
      = some (k, v) := by
  induction d with
  | nil => simp [hasKey] at hk
  | cons e rest ih =>
    rw [List.map_cons]
    by_cases he : (e.1 == k) = true
    · rw [if_pos he, List.find?_cons_of_pos _ (by simp)]
    · rw [if_neg he, List.find?_cons_of_neg _ (by simpa using he)]
      exact ih (by simpa [hasKey, he] using hk)

theorem find?_update_other (d : List (Str × Str)) (k v k' : Str) (hne : k' ≠ k) :
    (d.map (fun e => if e.1 == k then (k, v) else e)).find? (fun e => e.1 == k')
      = d.find? (fun e => e.1 == k') := by
  induction d with
  | nil => rfl
  | cons e rest ih =>
    rw [List.map_cons]
    by_cases he : (e.1 == k) = true
    · have he' : e.1 = k := beq_iff_eq.mp he
      rw [if_pos he, List.find?_cons_of_neg _ (by simp [Ne.symm hne]),
        List.find?_cons_of_neg _ (by simp [he', Ne.symm hne]), ih]
    · rw [if_neg he]
      by_cases he' : (e.1 == k') = true
      · rw [List.find?_cons_of_pos _ (by exact he'), List.find?_cons_of_pos _ (by exact he')]
      · rw [List.find?_cons_of_neg _ (by simpa using he'),
          List.find?_cons_of_neg _ (by simpa using he'), ih]

theorem dictGet_dictInsert (d : List (Str × Str)) (k v k' : Str) :
    dictGet (dictInsert d k v) k' = if k' = k then some v else dictGet d k' := by
  unfold dictInsert dictGet
  by_cases hk : hasKey d k = true
  · rw [if_pos hk]
    by_cases hkk : k' = k
    · subst hkk
      rw [if_pos rfl, find?_update_self d k' v hk]
      rfl
    · rw [if_neg hkk, find?_update_other d k v k' hkk]
  · rw [if_neg hk, List.find?_append]
    by_cases hkk : k' = k
    · subst hkk
      have hnone : d.find? (fun e => e.1 == k') = none := by
        rw [List.find?_eq_none]
        intro x hx hb
        exact hk (List.any_eq_true.mpr ⟨x, hx, hb⟩)
      rw [hnone, if_pos rfl, List.find?_cons_of_pos _ (by simp)]
      rfl
    · rw [if_neg hkk]
      have htail : ([(k, v)] : List (Str × Str)).find? (fun e => e.1 == k') = none := by
        rw [List.find?_cons_of_neg _ (by simp [Ne.symm hkk])]
        rfl
      rw [htail, Option.or_none]

theorem getLast?_cons_of_ne_nil {α : Type} (a : α) (l : List α) (h : l ≠ []) :
    (a :: l).getLast? = l.getLast? := by
  cases l with
  | nil => exact absurd rfl h
  | cons b t => exact List.getLast?_cons_cons

theorem dictGet_buildFiles (destOf : Package → Str) (k : Str) :
    ∀ (pkgs : List Package) (d : List (Str × Str)),
    dictGet (pkgs.foldl (fun d p => dictInsert d p.url (destOf p)) d) k
      = match (pkgs.filter (fun p => p.url == k)).getLast? with
        | some p => some (destOf p)
        | none => dictGet d k := by
  intro pkgs
  induction pkgs with
  | nil => intro d; rfl
  | cons p rest ih =>
    intro d
    rw [List.foldl_cons, ih, List.filter_cons]
    by_cases hp : (p.url == k) = true
    · rw [if_pos hp]
      cases hrest : (rest.filter (fun p => p.url == k)).getLast? with
      | some q =>
        have hne : rest.filter (fun p => p.url == k) ≠ [] := by
          intro h0
          rw [h0] at hrest
          exact Option.noConfusion hrest
        rw [getLast?_cons_of_ne_nil _ _ hne, hrest]
      | none =>
        rw [List.getLast?_eq_none_iff.mp hrest]
        have hk : k = p.url := (beq_iff_eq.mp hp).symm
        simp [dictGet_dictInsert, hk]
    · rw [if_neg hp]
      cases hrest : (rest.filter (fun p => p.url == k)).getLast? with
      | some q => rfl
      | none =>
        show dictGet (dictInsert d p.url (destOf p)) k = dictGet d k
        rw [dictGet_dictInsert]
        exact if_neg (fun h => hp (beq_iff_eq.mpr h.symm))

theorem keys_dictInsert (d : List (Str × Str)) (k v : Str) :
    (dictInsert d k v).map Prod.fst
      = if hasKey d k then d.map Prod.fst else d.map Prod.fst ++ [k] := by
  unfold dictInsert
  split
  · rw [List.map_map]
    apply List.map_congr_left
    intro e _
    by_cases hek : (e.1 == k) = true
    · simp [hek, (beq_iff_eq.mp hek).symm]
    · have hne : e.1 ≠ k := by simpa using hek
      simp [hne]
  · simp

theorem buildFiles_keys_nodup (destOf : Package → Str) :
    ∀ (pkgs : List Package) (d : List (Str × Str)),
    ((d.map Prod.fst).Nodup) →
    (((pkgs.foldl (fun d p => dictInsert d p.url (destOf p)) d).map Prod.fst).Nodup) := by
  intro pkgs
  induction pkgs with
  | nil => intro d h; exact h
  | cons p rest ih =>
    intro d h
    rw [List.foldl_cons]
    apply ih
    rw [keys_dictInsert]
    split
    · exact h
    case isFalse hk =>
      have hnot : p.url ∉ d.map Prod.fst := by
        intro hmem
        obtain ⟨e, he, hfst⟩ := List.mem_map.mp hmem
        exact hk (List.any_eq_true.mpr ⟨e, he, beq_iff_eq.mpr hfst⟩)
      simp [List.nodup_append, h, hnot]

/-- C10: within one (architecture, kind) partition the mapping handed to
the fetcher holds exactly one entry per distinct URL (its key list has no
duplicates), and the destination recorded for a URL is the one derived
from the last lockfile entry carrying that URL. -/
theorem c10_one_entry_per_url_last_wins (a : Arch) (out : Str) (k : Str) :
    ((a.binaryFiles out).map Prod.fst).Nodup
    ∧ dictGet (a.binaryFiles out) k
      = ((a.packages.filter (fun p => p.url == k)).getLast?).map
          (fun p => binDest out a.arch p.repoid p.url)
    ∧ ((a.sourceFiles out).map Prod.fst).Nodup
    ∧ dictGet (a.sourceFiles out) k
      = ((a.sources.filter (fun p => p.url == k)).getLast?).map
          (fun p => srcDest out a.arch p.repoid p.url) := by
  refine ⟨buildFiles_keys_nodup _ _ [] (by simp), ?_, buildFiles_keys_nodup _ _ [] (by simp), ?_⟩
  · rw [show a.binaryFiles out
        = a.packages.foldl
            (fun d p => dictInsert d p.url (binDest out a.arch p.repoid p.url)) []
      from rfl, dictGet_buildFiles]
    cases (a.packages.filter (fun p => p.url == k)).getLast? <;> rfl
  · rw [show a.sourceFiles out
        = a.sources.foldl
            (fun d p => dictInsert d p.url (srcDest out a.arch p.repoid p.url)) []
      from rfl, dictGet_buildFiles]
    cases (a.sources.filter (fun p => p.url == k)).getLast? <;> rfl

/-! Verifier lemmas (spec-modelled Integrity Verifier). -/

theorem verify_cons (H : HashFamily) (disk : DiskState) (path : Str)
    (m : FileMeta) (rest : List (Str × FileMeta)) :
    verify_downloaded H disk ((path, m) :: rest)
      = match checkArtifact H disk path m with
        | some err => Except.error err
        | none => verify_downloaded H disk rest := by
  simp only [verify_downloaded, checkArtifact]
  split_ifs <;> rfl

/-- Contract of the spec-modelled verifier: it walks the downloaded-file
metadata map in order and fails with the error of the first artifact whose
on-disk size or checksum does not match — per artifact checking first the
size (`Unexpected file size of <path>`), then the checksum-algorithm prefix
(`Unsupported hashing algorithm`), then the digest (`Unmatched checksum of
<path>`), in that order — and succeeds silently exactly when every artifact
matches. The fetch operation in src never invokes this step. -/
theorem verify_first_failure_in_order (H : HashFamily) (disk : DiskState)
    (entries : List (Str × FileMeta)) :
    (verify_downloaded H disk entries
      = (match entries.findSome? (fun e => checkArtifact H disk e.1 e.2) with
         | some err => Except.error err
         | none => Except.ok ()))
    ∧ (verify_downloaded H disk entries = Except.ok ()
        ↔ ∀ e ∈ entries, checkArtifact H disk e.1 e.2 = none)
    ∧ (∀ p, IntegrityError.message (IntegrityError.unexpectedSize p)
        = "Unexpected file size of ".data ++ p)
    ∧ (∀ a, IntegrityError.message (IntegrityError.unsupportedAlg a)
        = "Unsupported hashing algorithm ".data ++ a)
    ∧ (∀ p, IntegrityError.message (IntegrityError.unmatchedChecksum p)
        = "Unmatched checksum of ".data ++ p) := by
  have hmain : ∀ es : List (Str × FileMeta),
      verify_downloaded H disk es
        = (match es.findSome? (fun e => checkArtifact H disk e.1 e.2) with
           | some err => Except.error err
           | none => Except.ok ()) := by
    intro es
    induction es with
    | nil => rfl
    | cons e rest ih =>
      obtain ⟨path, m⟩ := e
      rw [verify_cons]
      cases hC : checkArtifact H disk path m with
      | some err => simp [List.findSome?_cons, hC]
      | none => simp [List.findSome?_cons, hC, ih]
  refine ⟨hmain entries, ?_, fun _ => rfl, fun _ => rfl, fun _ => rfl⟩
  rw [hmain entries]
  cases hF : entries.findSome? (fun e => checkArtifact H disk e.1 e.2) with
  | some err =>
    constructor
    · intro h
      exact Except.noConfusion h
    · intro hall
      have h0 := List.findSome?_eq_none_iff.mpr hall
      rw [hF] at h0
      exact Option.noConfusion h0
  | none =>
    constructor
    · intro _
      exact List.findSome?_eq_none_iff.mp hF
    · intro _
      rfl

/-! SBOM lemmas (spec-modelled Metadata Extractor). -/

theorem gen_append (query : Str → QueryResult) :
    ∀ (l₁ l₂ : List (Str × FileMeta)),
    generate_sbom_components query (l₁ ++ l₂)
      = generate_sbom_components query l₁ ++ generate_sbom_components query l₂ := by
  intro l₁
  induction l₁ with
  | nil => intro l₂; rfl
  | cons e rest ih =>
    intro l₂
    by_cases hm : e.2.package = true
    · simp [generate_sbom_components, hm, ih]
    · simp [generate_sbom_components, hm, ih]

theorem gen_map_false (query : Str → QueryResult) {α : Type} (f : α → Str × FileMeta)
    (h : ∀ x, (f x).2.package = false) :
    ∀ l : List α, generate_sbom_components query (l.map f) = [] := by
  intro l
  induction l with
  | nil => rfl
  | cons x rest ih => simp [generate_sbom_components, h x, ih]

theorem gen_map_true (query : Str → QueryResult) {α : Type} (f : α → Str × FileMeta)
    (h : ∀ x, (f x).2.package = true) :
    ∀ l : List α, generate_sbom_components query (l.map f)
      = l.map (fun x =>
          Component.mk (query (f x).1).name (query (f x).1).version
            (purlOf (query (f x).1) (f x).2.url)) := by
  intro l
  induction l with
  | nil => rfl
  | cons x rest ih => simp [generate_sbom_components, h x, ih]

/-- Contract of the spec-modelled SBOM builder: over the metadata of a
fetch run it emits exactly one component per binary package of the
lockfile, in order, and none for source artifacts; each component's purl is
`pkg:rpm/<vendor>/<name>@` then the epoch followed by `:` only when the
epoch is non-empty, then `<version>-<release>`, then `?arch=<arch>` and
`&download_url=` followed by the percent-encoded original download URL.
The fetch operation in src never invokes this step. -/
theorem sbom_one_component_per_binary_package (query : Str → QueryResult)
    (l : RpmsLock) (out : Str) :
    generate_sbom_components query (buildMetadata l out)
      = (l.arches.map (fun a => a.packages.map (fun p =>
          Component.mk (query (binDest out a.arch p.repoid p.url)).name
            (query (binDest out a.arch p.repoid p.url)).version
            ("pkg:rpm/".data ++ (query (binDest out a.arch p.repoid p.url)).vendor
              ++ "/".data ++ (query (binDest out a.arch p.repoid p.url)).name
              ++ "@".data
              ++ (if (query (binDest out a.arch p.repoid p.url)).epoch = [] then []
                  else (query (binDest out a.arch p.repoid p.url)).epoch ++ ":".data)
              ++ (query (binDest out a.arch p.repoid p.url)).version ++ "-".data
              ++ (query (binDest out a.arch p.repoid p.url)).release
              ++ "?arch=".data ++ (query (binDest out a.arch p.repoid p.url)).arch
              ++ "&download_url=".data ++ pyQuote p.url)))).flatten := by
  unfold buildMetadata
  induction l.arches with
  | nil => rfl
  | cons a rest ih =>
    simp only [List.map_cons, List.flatten_cons]
    rw [gen_append, gen_append,
      gen_map_true query _ (fun x => rfl),
      gen_map_false query _ (fun x => rfl), ih]
    simp [purlOf]

/-- C1 (as the code behaves): the src fetch operation performs no
verification at all. A run over the scenario lockfile succeeds — returning
`ok` with an empty component list and only download events — even on a
filesystem where the downloaded artifact's bytes are empty and thus match
neither the declared size nor the checksum; the spec-modelled verifier of
§4.3, applied to that same run's metadata over that disk, would reject it
with the `Unexpected file size of <path>` error the claim demands. -/
theorem c1_fetch_run_performs_no_verification :
    fetch_rpm_source (Request.mk ("src".data) ("output".data) [] []) scenarioFs 5 []
      = Except.ok ([], (RpmsLock.download binOnlyLock ("output".data) 5 []).2)
    ∧ verify_downloaded (HashFamily.mk (fun _ => true) (fun _ _ => []))
        (fun _ => []) (buildMetadata binOnlyLock ("output".data))
      = Except.error (IntegrityError.unexpectedSize
          (binDest ("output".data) ("x86_64".data) ("updates".data) binUrlStr)) := by
  constructor
  · rfl
  · rfl

/-- C2 (as the code behaves): the src fetch operation returns a
never-populated empty component list — the scenario run yields zero SBOM
components although its lockfile lists one installable binary package; the
spec-modelled SBOM builder of §4.4 over that same run's metadata would
return exactly the one claimed component, with the purl composed as the
claim states (percent-encoded download URL included). -/
theorem c2_fetch_returns_empty_components :
    fetch_rpm_source (Request.mk ("proj".data) ("output".data) [] []) scenarioFs 5 []
      = Except.ok (([] : List Component),
          (RpmsLock.download binOnlyLock ("output".data) 5 []).2)
    ∧ generate_sbom_components
        (fun _ => QueryResult.mk ("vim-enhanced".data) ("9.1.158".data)
          ("1.fc38".data) ("x86_64".data) ("redhat".data) [])
        (buildMetadata binOnlyLock ("output".data))
      = [Component.mk ("vim-enhanced".data) ("9.1.158".data)
          ("pkg:rpm/redhat/vim-enhanced@9.1.158-1.fc38?arch=x86_64&download_url=https%3A//example.com/x86_64/Packages/v/vim-enhanced-9.1.158-1.fc38.x86_64.rpm".data)]
    ∧ [Component.mk ("vim-enhanced".data) ("9.1.158".data)
          ("pkg:rpm/redhat/vim-enhanced@9.1.158-1.fc38?arch=x86_64&download_url=https%3A//example.com/x86_64/Packages/v/vim-enhanced-9.1.158-1.fc38.x86_64.rpm".data)]
      ≠ ([] : List Component) := by
  refine ⟨rfl, by decide, by decide⟩

end Cachi2
